import Mathlib

/-!
Verification development for the INDUSTRIAL_HAZARD_DETECTION telemetry
ingestion and event-distribution core.

Shallow embedding of:
* `src/core/config_manager.py` — `ConfigManager._get_default_config`,
  `ConfigManager.get`, `ConfigManager.set`;
* `src/core/event_bus.py` — `EventBus.subscribe`, `EventBus.unsubscribe`,
  `EventBus.publish` / `_notify_subscribers`, `EventBus.get_topics`,
  `EventBus.get_subscriber_count`;
* `src/network/network_manager.py` — the stream-transport frame decoder of
  `NetworkWorker.run_tcp`, the protocol dispatch of `NetworkWorker.start`,
  and `NetworkManager.on_data_received`.

Python dicts are embedded as insertion-ordered association lists
(`List (String × Value)`): lookup takes the first matching key, assignment
updates the first matching key in place or appends a fresh key at the end,
exactly as a Python dict behaves for the unique-keyed dicts this code builds.
Python `bytes` are embedded as `List Char` with one `Char` per byte (all wire
examples are ASCII).  Python code that would raise is embedded with `Option`:
`none` is an uncaught exception.
-/

/-- JSON-like values: the payloads stored in the configuration store and
carried by decoded wire messages.  Python `float` literals are embedded as
exact rationals (`Value.float`); no float arithmetic occurs anywhere in the
embedded code, the values are only stored and compared structurally. -/
inductive Value where
  | str : String → Value
  | int : Int → Value
  | float : Rat → Value
  | bool : Bool → Value
  | null : Value
  | list : List Value → Value
  | dict : List (String × Value) → Value

/-- Python dict lookup `d[k]` / `k in d`: first entry with the given key. -/
def alookup {β : Type} (es : List (String × β)) (k : String) : Option β :=
  match es with
  | [] => none
  | (k', v) :: rest => if k' = k then some v else alookup rest k

/-- Python dict assignment `d[k] = v`: update the first entry with the given
key in place, or append a fresh entry at the end (insertion order). -/
def aset {β : Type} (es : List (String × β)) (k : String) (v : β) :
    List (String × β) :=
  match es with
  | [] => [(k, v)]
  | (k', v') :: rest => if k' = k then (k, v) :: rest else (k', v') :: aset rest k v

/-- Python `key.split('.')` for the one-character separator `'.'`, on the
character list of the string.  `[]` splits to `[[]]`, mirroring
`''.split('.') == ['']`. -/
def splitDots : List Char → List (List Char)
  | [] => [[]]
  | c :: cs =>
    let r := splitDots cs
    if c = '.' then [] :: r
    else
      match r with
      | [] => [[c]]
      | l :: ls => (c :: l) :: ls

/-- The dotted-path segments of a configuration key: `key.split('.')`. -/
def segments (key : String) : List String :=
  (splitDots key.data).map (fun cs => String.mk cs)

/-! ### ConfigManager (`src/core/config_manager.py`) -/

/-- `ConfigManager._get_default_config`: the literal default configuration
dict, transcribed entry for entry.  Note `network.protocol` defaults to
`"websocket"` in the source. -/
def defaultConfig : Value := .dict [
  ("ui", .dict [
    ("theme", .str "dark"),
    ("sidebar_collapsed", .bool false),
    ("default_page", .str "Dashboard")]),
  ("network", .dict [
    ("esp32_ip", .str "192.168.1.100"),
    ("port", .int 8080),
    ("protocol", .str "websocket"),
    ("auto_reconnect", .bool true),
    ("reconnect_interval", .int 5)]),
  ("sensors", .dict [
    ("gas", .dict [
      ("enabled", .bool true),
      ("warning_threshold", .int 50),
      ("danger_threshold", .int 100),
      ("unit", .str "ppm")]),
    ("temperature", .dict [
      ("enabled", .bool true),
      ("warning_threshold", .int 40),
      ("danger_threshold", .int 50),
      ("unit", .str "°C")]),
    ("humidity", .dict [
      ("enabled", .bool true),
      ("unit", .str "%")]),
    ("gps", .dict [
      ("enabled", .bool true),
      ("update_interval", .int 1)]),
    ("accelerometer", .dict [
      ("enabled", .bool true),
      ("sampling_rate", .int 100)]),
    ("gyroscope", .dict [
      ("enabled", .bool true),
      ("sampling_rate", .int 100)])]),
  ("ml", .dict [
    ("fall_detection", .dict [
      ("enabled", .bool true),
      ("model_path", .str "models/fall_detection.pkl"),
      ("threshold", .float (7 / 10)),
      ("window_size", .int 50)])]),
  ("alerts", .dict [
    ("sound_enabled", .bool true),
    ("notification_enabled", .bool true),
    ("log_all_events", .bool true)]),
  ("data", .dict [
    ("log_retention_days", .int 30),
    ("export_format", .str "csv"),
    ("auto_export", .bool false)])]

/-- The loop body of `ConfigManager.get`: walk the already-split segment
list, descending only while the current value is a dict containing the
segment, otherwise returning the default.  The store is only read, never
written, and no branch raises. -/
def getWalk (default : Value) : Value → List String → Value
  | v, [] => v
  | .dict es, k :: ks =>
    match alookup es k with
    | some v => getWalk default v ks
    | none => default
  | _, _ :: _ => default

/-- `ConfigManager.get(key, default)`: split the key on `'.'` and walk the
nested dicts. -/
def configGet (cfg : Value) (key : String) (default : Value) : Value :=
  getWalk default cfg (segments key)

/-- Spec-style path lookup, written from the specification's words: "the
value reached by following the dot-segments through nested mappings when
every segment resolves", `none` when "any segment is missing or an
intermediate value is not a mapping".  Compared against `configGet` (the
source translation) in the claim about `ConfigManager.get`. -/
def pathLookup : Value → List String → Option Value
  | v, [] => some v
  | .dict es, k :: ks =>
    match alookup es k with
    | some v => pathLookup v ks
    | none => none
  | _, _ :: _ => none

/-- The loop body of `ConfigManager.set`: navigate to the parent dict of the
last segment, creating empty dicts for missing intermediate keys
(`if k not in config: config[k] = {}`), then assign the last segment.
An intermediate key holding a non-dict value makes the Python loop raise
`TypeError`; that is the `none` result. -/
def setPath : List (String × Value) → List String → Value →
    Option (List (String × Value))
  | _, [], _ => none
  | es, [k], v => some (aset es k v)
  | es, k :: k1 :: ks, v =>
    match alookup es k with
    | none =>
      match setPath [] (k1 :: ks) v with
      | some sub => some (aset es k (.dict sub))
      | none => none
    | some (.dict sub) =>
      match setPath sub (k1 :: ks) v with
      | some sub' => some (aset es k (.dict sub'))
      | none => none
    | some _ => none

/-- `ConfigManager.set(key, value)` on the in-memory store (file persistence
is outside the embedded core): split the key on `'.'` and update the nested
dicts.  `none` is an uncaught `TypeError`. -/
def configSet (es : List (String × Value)) (key : String) (v : Value) :
    Option (List (String × Value)) :=
  setPath es (segments key) v

/-! ### EventBus (`src/core/event_bus.py`)

The subscriber registry `self._subscribers` is a
`defaultdict(list)` from topic strings to callback lists; callbacks are
embedded as an abstract type `Cb` with decidable equality (Python compares
callbacks by identity with `in` / `remove`).  All registry accesses happen
under one re-entrant lock in the source and are serialized, so the lock
itself has no observable content here. -/

structure EventBus (Cb : Type) where
  subscribers : List (String × List Cb)

/-- `defaultdict.__getitem__`: accessing `self._subscribers[topic]` inserts
`(topic, [])` when the topic key is absent. -/
def ddAccess {Cb : Type} (m : List (String × List Cb)) (t : String) :
    List (String × List Cb) :=
  match alookup m t with
  | some _ => m
  | none => m ++ [(t, [])]

/-- `self._subscribers.get(topic, [])` / the list held under a topic. -/
def subsOf {Cb : Type} (bus : EventBus Cb) (t : String) : List Cb :=
  (alookup bus.subscribers t).getD []

/-- `EventBus.subscribe(topic, callback)`: defaultdict access, then append
the callback only if it is not already in the topic's list. -/
def EventBus.subscribe {Cb : Type} [DecidableEq Cb] (bus : EventBus Cb)
    (t : String) (c : Cb) : EventBus Cb :=
  let m := ddAccess bus.subscribers t
  let l := (alookup m t).getD []
  if c ∈ l then ⟨m⟩ else ⟨aset m t (l ++ [c])⟩

/-- `EventBus.unsubscribe(topic, callback)`: defaultdict access, then
`list.remove` (first occurrence) only if the callback is present. -/
def EventBus.unsubscribe {Cb : Type} [DecidableEq Cb] (bus : EventBus Cb)
    (t : String) (c : Cb) : EventBus Cb :=
  let m := ddAccess bus.subscribers t
  let l := (alookup m t).getD []
  if c ∈ l then ⟨aset m t (l.erase c)⟩ else ⟨m⟩

/-- `EventBus.get_topics()`: `list(self._subscribers.keys())` in insertion
order. -/
def EventBus.getTopics {Cb : Type} (bus : EventBus Cb) : List String :=
  bus.subscribers.map (fun e => e.1)

/-- `EventBus.get_subscriber_count(topic)`:
`len(self._subscribers.get(topic, []))`. -/
def EventBus.getSubscriberCount {Cb : Type} (bus : EventBus Cb) (t : String) : Nat :=
  (subsOf bus t).length

/-- The outcome of one subscriber callback invocation: it returns normally
or raises an exception. -/
inductive CbOutcome where
  | ok : CbOutcome
  | raises : CbOutcome
deriving DecidableEq

/-- What one delivery produced: the `(callback, payload)` invocations in
order, and how many subscriber exceptions were caught and printed by the
`except` branch of `_notify_subscribers`. -/
structure InvokeLog (Cb : Type) where
  invoked : List (Cb × Value)
  errorsLogged : Nat

/-- The delivery loop of `EventBus._notify_subscribers` over the snapshot
list: each callback is invoked inside `try/except Exception`, so a raising
callback is recorded as a logged error and iteration continues with the next
callback. -/
def notifyLoop {Cb : Type} (beh : Cb → Value → CbOutcome) :
    List Cb → Value → InvokeLog Cb
  | [], _ => ⟨[], 0⟩
  | c :: cs, d =>
    let rest := notifyLoop beh cs d
    match beh c d with
    | .ok => ⟨(c, d) :: rest.invoked, rest.errorsLogged⟩
    | .raises => ⟨(c, d) :: rest.invoked, rest.errorsLogged + 1⟩

/-- `EventBus.publish(topic, data)`: both the `use_qt_signal=True` path
(signal emission marshalled to `_qt_event_handler`) and the direct path end
in `_notify_subscribers`, which copies the topic's list under the lock and
iterates the snapshot.  `_notify_subscribers` only reads the registry, so
the bus state after the call is returned unchanged. -/
def EventBus.publish {Cb : Type} (bus : EventBus Cb)
    (beh : Cb → Value → CbOutcome) (t : String) (d : Value) :
    InvokeLog Cb × EventBus Cb :=
  (notifyLoop beh (subsOf bus t) d, bus)

/-! ### NetworkWorker stream framing (`src/network/network_manager.py`) -/

/-- The inner loop of `NetworkWorker.run_tcp`:
`while b'\n' in buffer: line, buffer = buffer.split(b'\n', 1)`.
Returns the complete newline-terminated lines in order and the trailing
partial bytes left in the buffer. -/
def splitNl : List Char → List (List Char) × List Char
  | [] => ([], [])
  | c :: cs =>
    let (ls, r) := splitNl cs
    if c = '\n' then ([] :: ls, r)
    else
      match ls with
      | [] => ([], c :: r)
      | l :: ls' => ((c :: l) :: ls', r)

/-- One iteration of the receive loop of `NetworkWorker.run_tcp` for a chunk
returned by `socket.recv`: `buffer += data`, then every complete line is
extracted and decoded, a line whose decode fails being swallowed by
`except json.JSONDecodeError: pass`.  The state is the ordered list of
messages emitted through `data_received` so far plus the frame buffer.  The
decoder is a parameter; the source always passes
`json.loads(line.decode('utf-8'))`, embedded below as `jsonDecode`. -/
def recvChunk (decode : List Char → Option Value)
    (st : List Value × List Char) (chunk : List Char) :
    List Value × List Char :=
  let buf := st.2 ++ chunk
  let (ls, r) := splitNl buf
  (st.1 ++ ls.filterMap decode, r)

/-- The receive loop over a whole sequence of chunks, starting from the
fresh `buffer = b''` of a new connection. -/
def recvAll (decode : List Char → Option Value)
    (chunks : List (List Char)) : List Value × List Char :=
  chunks.foldl (recvChunk decode) ([], [])

/-! `json.loads` on one decoded line, for the JSON subset this wire carries:
objects, arrays, strings with the single-character escapes, integer and
plain decimal numerals (no exponent), `true`/`false`/`null`, with
whitespace.  A Python `float` result is an exact rational here.  Any parse
failure — including trailing garbage — is `none`, i.e. `JSONDecodeError`. -/

/-- Skip JSON whitespace. -/
def skipWs : List Char → List Char
  | [] => []
  | c :: cs =>
    if c = ' ' ∨ c = '\t' ∨ c = '\n' ∨ c = '\r' then skipWs cs else c :: cs

/-- The character named by a single-character JSON escape. -/
def unescapeChar (c : Char) : Option Char :=
  if c = '"' then some '"'
  else if c = '\\' then some '\\'
  else if c = '/' then some '/'
  else if c = 'n' then some '\n'
  else if c = 't' then some '\t'
  else if c = 'r' then some '\r'
  else none

/-- Parse a JSON string body after its opening quote, up to and including
the closing quote. -/
def parseStrChars : List Char → Option (List Char × List Char)
  | [] => none
  | c :: cs =>
    if c = '"' then some ([], cs)
    else if c = '\\' then
      match cs with
      | [] => none
      | e :: cs' =>
        match unescapeChar e, parseStrChars cs' with
        | some ec, some (body, rest) => some (ec :: body, rest)
        | _, _ => none
    else
      match parseStrChars cs with
      | some (body, rest) => some (c :: body, rest)
      | none => none

/-- Take the leading run of decimal digits. -/
def takeDigits : List Char → List Char × List Char
  | [] => ([], [])
  | c :: cs =>
    if c.isDigit then
      let (ds, r) := takeDigits cs
      (c :: ds, r)
    else ([], c :: cs)

/-- Numeric value of a digit run. -/
def digitsVal (ds : List Char) : Nat :=
  ds.foldl (fun a c => 10 * a + (c.toNat - 48)) 0

/-- Parse a JSON numeral after an optional leading minus sign: an integer,
or a decimal-point numeral giving a float. -/
def parseNumBody (neg : Bool) (s : List Char) : Option (Value × List Char) :=
  match takeDigits s with
  | ([], _) => none
  | (ds, rest) =>
    match rest with
    | '.' :: rest2 =>
      match takeDigits rest2 with
      | ([], _) => none
      | (fs, rest3) =>
        let q : Rat := (digitsVal ds : Rat) + (digitsVal fs : Rat) / ((10 : Rat) ^ fs.length)
        some (.float (if neg then -q else q), rest3)
    | _ =>
      some (.int (if neg then -(digitsVal ds : Int) else (digitsVal ds : Int)), rest)

/-- Match an exact literal tail (`rue`, `alse`, `ull`). -/
def expectChars (pat : List Char) (s : List Char) : Option (List Char) :=
  match pat, s with
  | [], rest => some rest
  | p :: ps, c :: cs => if c = p then expectChars ps cs else none
  | _ :: _, [] => none

mutual

/-- Parse one JSON value, consuming leading whitespace.  The fuel bounds
recursion depth; `jsonDecode` supplies more fuel than any input can use. -/
def parseValue : Nat → List Char → Option (Value × List Char)
  | 0, _ => none
  | fuel + 1, s =>
    match skipWs s with
    | [] => none
    | c :: cs =>
      if c = '\x7b' then
        match skipWs cs with
        | c2 :: rest =>
          if c2 = '\x7d' then some (.dict [], rest)
          else
            match parseMembers fuel (c2 :: rest) with
            | some (ms, r) => some (.dict ms, r)
            | none => none
        | [] => none
      else if c = '[' then
        match skipWs cs with
        | c2 :: rest =>
          if c2 = ']' then some (.list [], rest)
          else
            match parseElems fuel (c2 :: rest) with
            | some (vs, r) => some (.list vs, r)
            | none => none
        | [] => none
      else if c = '"' then
        match parseStrChars cs with
        | some (body, r) => some (.str (String.mk body), r)
        | none => none
      else if c = 't' then
        match expectChars ['r', 'u', 'e'] cs with
        | some r => some (.bool true, r)
        | none => none
      else if c = 'f' then
        match expectChars ['a', 'l', 's', 'e'] cs with
        | some r => some (.bool false, r)
        | none => none
      else if c = 'n' then
        match expectChars ['u', 'l', 'l'] cs with
        | some r => some (.null, r)
        | none => none
      else if c = '-' then parseNumBody true cs
      else if c.isDigit then parseNumBody false (c :: cs)
      else none

/-- Parse the members of a nonempty JSON object, up to and including the
closing brace. -/
def parseMembers : Nat → List Char → Option (List (String × Value) × List Char)
  | 0, _ => none
  | fuel + 1, s =>
    match skipWs s with
    | '"' :: cs =>
      match parseStrChars cs with
      | some (key, r1) =>
        match skipWs r1 with
        | ':' :: r2 =>
          match parseValue fuel r2 with
          | some (v, r3) =>
            match skipWs r3 with
            | ',' :: r4 =>
              match parseMembers fuel r4 with
              | some (ms, r5) => some ((String.mk key, v) :: ms, r5)
              | none => none
            | c4 :: r4 =>
              if c4 = '\x7d' then some ([(String.mk key, v)], r4) else none
            | [] => none
          | none => none
        | _ => none
      | none => none
    | _ => none

/-- Parse the elements of a nonempty JSON array, up to and including the
closing bracket. -/
def parseElems : Nat → List Char → Option (List Value × List Char)
  | 0, _ => none
  | fuel + 1, s =>
    match parseValue fuel s with
    | some (v, r) =>
      match skipWs r with
      | ',' :: r2 =>
        match parseElems fuel r2 with
        | some (vs, r3) => some (v :: vs, r3)
        | none => none
      | ']' :: r2 => some ([v], r2)
      | _ => none
    | none => none

end

/-- `json.loads` on one line: parse one value and require only whitespace to
remain. -/
def jsonDecode (s : List Char) : Option Value :=
  match parseValue (s.length + 1) s with
  | some (v, rest) => if skipWs rest = [] then some v else none
  | none => none

/-! ### NetworkWorker protocol dispatch and NetworkManager routing -/

/-- Which receive loop `NetworkWorker.start` enters. -/
inductive Transport where
  | tcp : Transport
  | udp : Transport
  | unsupported : Transport
deriving DecidableEq

/-- Python `str.lower()` on the ASCII protocol strings, charwise. -/
def strLower (s : String) : String := String.mk (s.data.map Char.toLower)

/-- `NetworkWorker.__init__` stores `protocol.lower()`;
`NetworkWorker.start` then runs `run_tcp` for `'tcp'`, `run_udp` for
`'udp'`, and emits an `error_occurred("Unsupported protocol: ...")` for
anything else. -/
def workerTransport (protocol : String) : Transport :=
  let p := strLower protocol
  if p = "tcp" then .tcp
  else if p = "udp" then .udp
  else .unsupported

/-- `NetworkManager.setup_worker` reading the transport protocol against a
freshly-initialized store, i.e. one populated by `_get_default_config`:
`self.config_manager.get('network.protocol', 'tcp')`. -/
def setupWorkerProtocol : Value :=
  configGet defaultConfig "network.protocol" (.str "tcp")

/-- The routing table of `NetworkManager.on_data_received`: the `elif`
chain maps each recognized discriminator to its bus topic. -/
def sensorTopics : List (String × String) :=
  [("gas", "sensor.gas"), ("gps", "sensor.gps"),
   ("temperature", "sensor.temperature"), ("humidity", "sensor.humidity"),
   ("accelerometer", "sensor.accelerometer"), ("gyroscope", "sensor.gyroscope")]

/-- One inner entry of a `combined` message.  Modelled from the spec: the
`combined` loop body is missing from the source under `src/` (the file
breaks off right after `for key, value in data.get('sensors', {}).items():`),
so the body follows the specification's words — "decomposed into one publish
per inner entry, each directed to its corresponding topic using the same
routing table; entries whose key is not in the routing table are dropped
silently" — with the inner value as the published payload (P6: "a publish to
`sensor.gas` with value `10`"). -/
def routeInner (kv : String × Value) : Option (String × Value) :=
  match alookup sensorTopics kv.1 with
  | some topic => some (topic, kv.2)
  | none => none

/-- `NetworkManager.on_data_received(data)`: read `data.get('type', '')`
and publish along the `elif` chain; the result is the ordered list of
`(topic, payload)` publishes, and `none` is an uncaught exception
(`.items()` on a non-dict `sensors` value in the `combined` branch).  The
`combined` loop body and the absence of any further publish after the chain
are modelled from the spec (the source file is truncated inside that
branch); an unrecognized discriminator — including a non-string or missing
`type` — falls out of the chain with no publish and no error. -/
def onDataReceived (data : List (String × Value)) :
    Option (List (String × Value)) :=
  match (alookup data "type").getD (.str "") with
  | .str s =>
    if s = "gas" then some [("sensor.gas", .dict data)]
    else if s = "gps" then some [("sensor.gps", .dict data)]
    else if s = "temperature" then some [("sensor.temperature", .dict data)]
    else if s = "humidity" then some [("sensor.humidity", .dict data)]
    else if s = "accelerometer" then some [("sensor.accelerometer", .dict data)]
    else if s = "gyroscope" then some [("sensor.gyroscope", .dict data)]
    else if s = "combined" then
      match (alookup data "sensors").getD (.dict []) with
      | .dict sensors => some (sensors.filterMap routeInner)
      | _ => none
    else some []
  | _ => some []

/-- `p` names a dotted prefix of `q`, segment-wise: the first `p.length`
segments of `q` are exactly `p`. -/
def segsLe (p q : List String) : Prop := q.take p.length = p

instance (p q : List String) : Decidable (segsLe p q) := by
  unfold segsLe; infer_instance

/-- A path at which `ConfigManager.set` may navigate: the key is absent, or
it holds a mapping. -/
def isOpenB : Option Value → Bool
  | none => true
  | some (.dict _) => true
  | some _ => false

/-! ### Helper lemmas -/

theorem alookup_aset_self {β : Type} (es : List (String × β)) (k : String) (v : β) :
    alookup (aset es k v) k = some v := by
  induction es with
  | nil => simp [aset, alookup]
  | cons hd tl ih =>
    obtain ⟨k', v'⟩ := hd
    by_cases h : k' = k
    · simp [aset, alookup, h]
    · simp [aset, alookup, h, ih]

theorem alookup_aset_ne {β : Type} (es : List (String × β)) (k j : String) (v : β)
    (h : j ≠ k) : alookup (aset es k v) j = alookup es j := by
  induction es with
  | nil => simp [aset, alookup, Ne.symm h]
  | cons hd tl ih =>
    obtain ⟨k', v'⟩ := hd
    by_cases hk : k' = k
    · subst hk
      simp [aset, alookup, Ne.symm h]
    · simp only [aset, if_neg hk, alookup]
      by_cases hj : k' = j
      · simp [hj]
      · simp [hj, ih]

theorem splitDots_ne_nil (cs : List Char) : splitDots cs ≠ [] := by
  induction cs with
  | nil => simp [splitDots]
  | cons c cs ih =>
    simp only [splitDots]
    by_cases h : c = '.'
    · simp [h]
    · simp only [if_neg h]
      match hr : splitDots cs with
      | [] => simp
      | l :: ls => simp

theorem segments_ne_nil (key : String) : segments key ≠ [] := by
  simp [segments, splitDots_ne_nil]

theorem getWalk_eq_pathLookup (d : Value) :
    ∀ (ks : List String) (v : Value), getWalk d v ks = (pathLookup v ks).getD d := by
  intro ks
  induction ks with
  | nil => intro v; cases v <;> rfl
  | cons k ks ih =>
    intro v
    cases v with
    | dict es =>
      simp only [getWalk, pathLookup]
      cases alookup es k with
      | some w => exact ih w
      | none => rfl
    | str s => rfl
    | int n => rfl
    | float q => rfl
    | bool b => rfl
    | null => rfl
    | list l => rfl

/-! ### Claim theorems -/

/-- Claim C9: `ConfigManager.get` is total (a Lean function by
construction, with no raising branch), reads the store without writing it
(it is a pure function of the store), and returns the value reached by
following the dot-segments through nested mappings when every segment
resolves, and the supplied default whenever a segment is missing or an
intermediate value is not a mapping — i.e. it agrees with the spec-style
`pathLookup` with the default filled in for `none`. -/
theorem claim_C9_get_total_lookup (cfg : Value) (key : String) (default : Value) :
    configGet cfg key default = (pathLookup cfg (segments key)).getD default :=
  getWalk_eq_pathLookup default (segments key) cfg

/-- Claim C2, counterexample: against the freshly-initialized store
(`_get_default_config`), `ConfigManager.get('network.protocol', 'tcp')`
returns `'websocket'`, not `'tcp'`, and the worker constructed with that
protocol string dispatches to neither `run_tcp` nor `run_udp`. -/
theorem claim_C2_counterexample :
    setupWorkerProtocol = Value.str "websocket"
    ∧ Value.str "websocket" ≠ Value.str "tcp"
    ∧ workerTransport "websocket" ≠ Transport.tcp := by
  refine ⟨rfl, ?_, by decide⟩
  intro h
  simp at h

/-- Claim C2, amended: against a freshly-initialized configuration store,
the Ingestion Manager reads `network.protocol` and obtains `'websocket'`
(the store default shadows the `'tcp'` fallback argument of `get`), so the
Transport Worker it constructs uses neither the stream nor the datagram
transport: `NetworkWorker.start` hits the unsupported-protocol branch. -/
theorem claim_C2_fresh_protocol_websocket :
    setupWorkerProtocol = Value.str "websocket"
    ∧ workerTransport "websocket" = Transport.unsupported :=
  ⟨rfl, by decide⟩

theorem alookup_append {β : Type} (xs ys : List (String × β)) (k : String) :
    alookup (xs ++ ys) k
      = match alookup xs k with
        | some v => some v
        | none => alookup ys k := by
  induction xs with
  | nil => simp [alookup]
  | cons hd tl ih =>
    obtain ⟨k', v⟩ := hd
    by_cases h : k' = k
    · simp [alookup, h]
    · simp [alookup, h, ih]

theorem alookup_append_sngl_ne {β : Type} (m : List (String × β)) (t u : String)
    (x : β) (h : u ≠ t) : alookup (m ++ [(t, x)]) u = alookup m u := by
  rw [alookup_append]
  cases alookup m u <;> simp [alookup, Ne.symm h]

theorem alookup_none_iff {β : Type} (m : List (String × β)) (k : String) :
    alookup m k = none ↔ k ∉ m.map (fun e => e.1) := by
  induction m with
  | nil => simp [alookup]
  | cons hd tl ih =>
    obtain ⟨k', v⟩ := hd
    by_cases h : k' = k
    · subst h; simp [alookup]
    · simp [alookup, h, ih, Ne.symm h]

theorem ddAccess_of_some {Cb : Type} (m : List (String × List Cb)) (t : String)
    (l : List Cb) (h : alookup m t = some l) : ddAccess m t = m := by
  simp [ddAccess, h]

theorem notifyLoop_invoked {Cb : Type} (beh : Cb → Value → CbOutcome) (d : Value) :
    ∀ cs : List Cb, (notifyLoop beh cs d).invoked = cs.map (fun c => (c, d)) := by
  intro cs
  induction cs with
  | nil => rfl
  | cons c cs ih =>
    simp only [notifyLoop, List.map_cons]
    cases beh c d <;> simp [ih]

theorem subsOf_subscribe_self {Cb : Type} [DecidableEq Cb] (bus : EventBus Cb)
    (t : String) (c : Cb) :
    subsOf (bus.subscribe t c) t
      = if c ∈ subsOf bus t then subsOf bus t else subsOf bus t ++ [c] := by
  cases hl : alookup bus.subscribers t with
  | some l =>
    have hm : ddAccess bus.subscribers t = bus.subscribers :=
      ddAccess_of_some _ _ _ hl
    have hsub : subsOf bus t = l := by simp [subsOf, hl]
    simp only [EventBus.subscribe]
    rw [hm, hl, hsub]
    simp only [Option.getD_some]
    by_cases hc : c ∈ l
    · simp [hc, subsOf, hl]
    · simp [hc, subsOf, alookup_aset_self]
  | none =>
    have hm : ddAccess bus.subscribers t = bus.subscribers ++ [(t, [])] := by
      simp [ddAccess, hl]
    have hsub : subsOf bus t = [] := by simp [subsOf, hl]
    have hlk : alookup (bus.subscribers ++ [(t, [])]) t = some [] := by
      rw [alookup_append, hl]
      simp [alookup]
    simp only [EventBus.subscribe]
    rw [hm, hlk, hsub]
    simp [subsOf, alookup_aset_self]

theorem subscribe_mem {Cb : Type} [DecidableEq Cb] (bus : EventBus Cb)
    (t : String) (c : Cb) : c ∈ subsOf (bus.subscribe t c) t := by
  rw [subsOf_subscribe_self]
  by_cases hc : c ∈ subsOf bus t
  · rw [if_pos hc]; exact hc
  · simp [hc]

theorem subscribe_of_mem {Cb : Type} [DecidableEq Cb] (bus : EventBus Cb)
    (t : String) (c : Cb) (h : c ∈ subsOf bus t) : bus.subscribe t c = bus := by
  cases hl : alookup bus.subscribers t with
  | none => rw [subsOf, hl] at h; simp at h
  | some l =>
    rw [subsOf, hl] at h
    simp only [Option.getD_some] at h
    have hm : ddAccess bus.subscribers t = bus.subscribers :=
      ddAccess_of_some _ _ _ hl
    simp only [EventBus.subscribe]
    rw [hm, hl]
    simp [h]

/-- Claim C3, counterexample: unsubscribing a never-registered callback from
a topic the bus has never seen does change the observable state — the
defaultdict access inside `unsubscribe` inserts the topic with an empty
subscriber list, and `get_topics()` then reports it. -/
theorem claim_C3_counterexample :
    (0 : Nat) ∉ subsOf (⟨[]⟩ : EventBus Nat) "x"
    ∧ (EventBus.unsubscribe (⟨[]⟩ : EventBus Nat) "x" 0).getTopics
      ≠ (⟨[]⟩ : EventBus Nat).getTopics := by
  constructor
  · decide
  · decide

/-- Claim C3, amended: for a callback not registered under the topic,
`unsubscribe(t, c)` raises no error and leaves every subscriber count
unchanged (including topic `t` itself, which stays at zero subscribers),
and leaves `get_topics()` unchanged when `t` was already a key — but when
`t` was never seen, the defaultdict access appends `t` (with an empty
subscriber list) to `get_topics()`. -/
theorem claim_C3_unsubscribe_absent {Cb : Type} [DecidableEq Cb]
    (bus : EventBus Cb) (t : String) (c : Cb) (h : c ∉ subsOf bus t) :
    (∀ u, (bus.unsubscribe t c).getSubscriberCount u = bus.getSubscriberCount u)
    ∧ (bus.unsubscribe t c).getTopics
      = (if t ∈ bus.getTopics then bus.getTopics else bus.getTopics ++ [t]) := by
  cases hl : alookup bus.subscribers t with
  | some l =>
    have hm : ddAccess bus.subscribers t = bus.subscribers :=
      ddAccess_of_some _ _ _ hl
    have hc : c ∉ l := by rw [subsOf, hl] at h; simpa using h
    have hres : bus.unsubscribe t c = bus := by
      simp only [EventBus.unsubscribe]
      rw [hm, hl]
      simp [hc]
    have htop : t ∈ List.map (fun e => e.1) bus.subscribers := by
      have hne : ¬ (alookup bus.subscribers t = none) := by simp [hl]
      rw [alookup_none_iff] at hne
      simpa using hne
    rw [hres]
    simp [EventBus.getTopics, htop]
  | none =>
    have hm : ddAccess bus.subscribers t = bus.subscribers ++ [(t, [])] := by
      simp [ddAccess, hl]
    have hlk : alookup (bus.subscribers ++ [(t, [])]) t = some [] := by
      rw [alookup_append, hl]
      simp [alookup]
    have hres : bus.unsubscribe t c = ⟨bus.subscribers ++ [(t, [])]⟩ := by
      simp only [EventBus.unsubscribe]
      rw [hm, hlk]
      simp
    have htop : t ∉ List.map (fun e => e.1) bus.subscribers :=
      (alookup_none_iff bus.subscribers t).mp hl
    rw [hres]
    constructor
    · intro u
      by_cases hu : u = t
      · subst hu
        simp [EventBus.getSubscriberCount, subsOf, hlk, hl]
      · simp [EventBus.getSubscriberCount, subsOf, alookup_append_sngl_ne _ _ _ _ hu]
    · simp [EventBus.getTopics, htop]

theorem claim_C3_witness :
    ((0 : Nat) ∉ subsOf (⟨[("y", [5])]⟩ : EventBus Nat) "y")
    ∧ ((∀ u, ((⟨[("y", [5])]⟩ : EventBus Nat).unsubscribe "y" 0).getSubscriberCount u
          = (⟨[("y", [5])]⟩ : EventBus Nat).getSubscriberCount u)
      ∧ ((⟨[("y", [5])]⟩ : EventBus Nat).unsubscribe "y" 0).getTopics
        = (if "y" ∈ (⟨[("y", [5])]⟩ : EventBus Nat).getTopics
           then (⟨[("y", [5])]⟩ : EventBus Nat).getTopics
           else (⟨[("y", [5])]⟩ : EventBus Nat).getTopics ++ ["y"])) :=
  ⟨by decide, claim_C3_unsubscribe_absent ⟨[("y", [5])]⟩ "y" 0 (by decide)⟩

/-- Claim C4: if the subscriber at index `i` of a topic's registration list
raises during delivery, every subscriber after it is still invoked with the
event — the invocation log of the delivery loop is the whole snapshot, in
registration order, for every behaviour — the exception is caught inside
`_notify_subscribers` (so `publish` returns normally, being a total
function of the embedding), and the bus state is unchanged by the publish,
so subsequent publishes deliver to the same subscribers. -/
theorem claim_C4_subscriber_isolation {Cb : Type} (bus : EventBus Cb)
    (beh : Cb → Value → CbOutcome) (t : String) (d : Value)
    (i : Nat) (ci : Cb) (_hci : (subsOf bus t).get? i = some ci)
    (_hraises : beh ci d = CbOutcome.raises) :
    (bus.publish beh t d).1.invoked = (subsOf bus t).map (fun c => (c, d))
    ∧ (bus.publish beh t d).2 = bus :=
  ⟨notifyLoop_invoked beh d (subsOf bus t), rfl⟩

theorem claim_C4_witness :
    ((subsOf (⟨[("T", [1, 2])]⟩ : EventBus Nat) "T").get? 0 = some 1)
    ∧ ((fun c _ => if c = 1 then CbOutcome.raises else CbOutcome.ok) 1
        (Value.int 0) = CbOutcome.raises)
    ∧ ((EventBus.publish (⟨[("T", [1, 2])]⟩ : EventBus Nat)
        (fun c _ => if c = 1 then CbOutcome.raises else CbOutcome.ok) "T"
        (Value.int 0)).1.invoked
      = (subsOf (⟨[("T", [1, 2])]⟩ : EventBus Nat) "T").map (fun c => (c, Value.int 0)))
    ∧ (EventBus.publish (⟨[("T", [1, 2])]⟩ : EventBus Nat)
        (fun c _ => if c = 1 then CbOutcome.raises else CbOutcome.ok) "T"
        (Value.int 0)).2 = (⟨[("T", [1, 2])]⟩ : EventBus Nat) := by
  refine ⟨by decide, by decide, ?_, ?_⟩
  · exact (claim_C4_subscriber_isolation ⟨[("T", [1, 2])]⟩
      (fun c _ => if c = 1 then CbOutcome.raises else CbOutcome.ok) "T"
      (Value.int 0) 0 1 (by decide) (by decide)).1
  · exact (claim_C4_subscriber_isolation ⟨[("T", [1, 2])]⟩
      (fun c _ => if c = 1 then CbOutcome.raises else CbOutcome.ok) "T"
      (Value.int 0) 0 1 (by decide) (by decide)).2

/-- Claim C5: subscribe is idempotent — subscribing the same callback to
the same topic twice leaves the bus exactly as one subscribe does (for any
starting state); and starting from a state where the callback is not yet
registered, one subscribe appends it once (it occurs exactly once in the
topic's list, the subscriber count grows by one), and a single publish to
the topic invokes it exactly once. -/
theorem claim_C5_subscribe_idempotent {Cb : Type} [DecidableEq Cb]
    (bus : EventBus Cb) (t : String) (c : Cb) (beh : Cb → Value → CbOutcome)
    (d : Value) (h : c ∉ subsOf bus t) :
    (∀ bus' : EventBus Cb, (bus'.subscribe t c).subscribe t c = bus'.subscribe t c)
    ∧ subsOf (bus.subscribe t c) t = subsOf bus t ++ [c]
    ∧ (subsOf (bus.subscribe t c) t).count c = 1
    ∧ (bus.subscribe t c).getSubscriberCount t = bus.getSubscriberCount t + 1
    ∧ ((bus.subscribe t c).publish beh t d).1.invoked.filter (fun p => p.1 = c)
      = [(c, d)] := by
  have hone : subsOf (bus.subscribe t c) t = subsOf bus t ++ [c] := by
    rw [subsOf_subscribe_self, if_neg h]
  refine ⟨?_, hone, ?_, ?_, ?_⟩
  · intro bus'
    exact subscribe_of_mem _ t c (subscribe_mem bus' t c)
  · rw [hone]
    simp [List.count_append, List.count_eq_zero.mpr h]
  · simp [EventBus.getSubscriberCount, hone]
  · rw [EventBus.publish]
    simp only [notifyLoop_invoked, hone, List.map_append, List.filter_append]
    rw [List.filter_eq_nil_iff.mpr, List.nil_append]
    · simp
    · intro p hp
      simp only [List.mem_map] at hp
      obtain ⟨x, hx, rfl⟩ := hp
      simp only [decide_eq_true_eq]
      intro hxc
      exact h (by simpa [hxc] using hx)

theorem claim_C5_witness :
    ((0 : Nat) ∉ subsOf (⟨[]⟩ : EventBus Nat) "x")
    ∧ ((∀ bus' : EventBus Nat,
        (bus'.subscribe "x" 0).subscribe "x" 0 = bus'.subscribe "x" 0)
      ∧ subsOf ((⟨[]⟩ : EventBus Nat).subscribe "x" 0) "x"
        = subsOf (⟨[]⟩ : EventBus Nat) "x" ++ [0]
      ∧ (subsOf ((⟨[]⟩ : EventBus Nat).subscribe "x" 0) "x").count 0 = 1
      ∧ ((⟨[]⟩ : EventBus Nat).subscribe "x" 0).getSubscriberCount "x"
        = (⟨[]⟩ : EventBus Nat).getSubscriberCount "x" + 1
      ∧ (((⟨[]⟩ : EventBus Nat).subscribe "x" 0).publish
          (fun _ _ => CbOutcome.ok) "x" Value.null).1.invoked.filter
          (fun p => p.1 = 0) = [(0, Value.null)]) :=
  ⟨by decide, claim_C5_subscribe_idempotent ⟨[]⟩ "x" 0 (fun _ _ => CbOutcome.ok)
    Value.null (by decide)⟩

theorem sensorTopics_inj (k1 k2 t : String)
    (h1 : alookup sensorTopics k1 = some t)
    (h2 : alookup sensorTopics k2 = some t) : k1 = k2 := by
  simp only [sensorTopics, alookup] at h1 h2
  split_ifs at h1 h2 <;> subst_vars <;> simp_all
  all_goals (rw [← h1] at h2; simp at h2)

theorem routeInner_eq (kv : String × Value) (p : String × Value)
    (h : routeInner kv = some p) :
    alookup sensorTopics kv.1 = some p.1 ∧ p.2 = kv.2 := by
  unfold routeInner at h
  cases ht : alookup sensorTopics kv.1 with
  | none => rw [ht] at h; exact absurd h (by simp)
  | some topic =>
    rw [ht] at h
    simp only [Option.some.injEq] at h
    subst h
    exact ⟨rfl, rfl⟩

theorem filter_topic_nil (tl : List (String × Value)) (k topic : String)
    (ht : alookup sensorTopics k = some topic)
    (hk : k ∉ tl.map (fun kv => kv.1)) :
    (tl.filterMap routeInner).filter (fun p => p.1 = topic) = [] := by
  induction tl with
  | nil => rfl
  | cons hd tl ih =>
    simp only [List.map_cons, List.mem_cons, not_or] at hk
    obtain ⟨hne, hk⟩ := hk
    cases hr : routeInner hd with
    | none => simp only [List.filterMap_cons, hr]; exact ih hk
    | some p =>
      obtain ⟨hp1, _⟩ := routeInner_eq hd p hr
      have hpt : ¬ (p.1 = topic) := by
        intro he
        exact hne (sensorTopics_inj hd.1 k topic (he ▸ hp1) ht).symm
      simp only [List.filterMap_cons, hr, List.filter_cons]
      rw [if_neg (by simpa using hpt)]
      exact ih hk

theorem filterMap_routeInner_filter (sensors : List (String × Value))
    (hnodup : (sensors.map (fun kv => kv.1)).Nodup)
    (kv : String × Value) (hmem : kv ∈ sensors) (topic : String)
    (ht : alookup sensorTopics kv.1 = some topic) :
    (sensors.filterMap routeInner).filter (fun p => p.1 = topic)
      = [(topic, kv.2)] := by
  induction sensors with
  | nil => exact absurd hmem (by simp)
  | cons hd tl ih =>
    simp only [List.map_cons, List.nodup_cons] at hnodup
    obtain ⟨hhd, htl⟩ := hnodup
    rcases List.mem_cons.mp hmem with heq | hmemtl
    · subst heq
      have hr : routeInner kv = some (topic, kv.2) := by
        simp [routeInner, ht]
      simp only [List.filterMap_cons, hr, List.filter_cons]
      rw [if_pos (by simp)]
      rw [filter_topic_nil tl kv.1 topic ht hhd]
    · cases hr : routeInner hd with
      | none =>
        simp only [List.filterMap_cons, hr]
        exact ih htl hmemtl
      | some p =>
        obtain ⟨hp1, _⟩ := routeInner_eq hd p hr
        have hne : ¬ (p.1 = topic) := by
          intro he
          have : hd.1 = kv.1 := sensorTopics_inj hd.1 kv.1 topic (he ▸ hp1) ht
          exact hhd (this ▸ List.mem_map_of_mem (fun kv => kv.1) hmemtl)
        simp only [List.filterMap_cons, hr, List.filter_cons]
        rw [if_neg (by simpa using hne)]
        exact ih htl hmemtl

/-- Claim C1: a decoded message whose `type` is `combined` and whose
`sensors` field is a mapping is decomposed by `on_data_received` into one
publish per inner entry whose key is in the routing table, each to its
corresponding topic with the entry's value as payload (exactly one publish
per such entry when the inner keys are distinct, as they are in a Python
dict), and every publish it makes arises from such an entry. -/
theorem claim_C1_combined_routing (data sensors : List (String × Value))
    (htype : alookup data "type" = some (Value.str "combined"))
    (hsens : alookup data "sensors" = some (Value.dict sensors))
    (hnodup : (sensors.map (fun kv => kv.1)).Nodup) :
    ∃ pubs, onDataReceived data = some pubs
      ∧ (∀ kv ∈ sensors, ∀ topic, alookup sensorTopics kv.1 = some topic →
          pubs.filter (fun p => p.1 = topic) = [(topic, kv.2)])
      ∧ (∀ p ∈ pubs, ∃ kv ∈ sensors,
          alookup sensorTopics kv.1 = some p.1 ∧ p.2 = kv.2) := by
  refine ⟨sensors.filterMap routeInner, ?_, ?_, ?_⟩
  · unfold onDataReceived
    rw [htype, hsens]
    simp
  · intro kv hmem topic ht
    exact filterMap_routeInner_filter sensors hnodup kv hmem topic ht
  · intro p hp
    rw [List.mem_filterMap] at hp
    obtain ⟨kv, hkv, hr⟩ := hp
    exact ⟨kv, hkv, routeInner_eq kv p hr⟩

theorem claim_C1_witness :
    (alookup [("type", Value.str "combined"),
        ("sensors", Value.dict [("gas", Value.int 10), ("temperature", Value.int 20)])]
        "type" = some (Value.str "combined"))
    ∧ (alookup [("type", Value.str "combined"),
        ("sensors", Value.dict [("gas", Value.int 10), ("temperature", Value.int 20)])]
        "sensors" = some (Value.dict [("gas", Value.int 10), ("temperature", Value.int 20)]))
    ∧ (([("gas", Value.int 10), ("temperature", Value.int 20)].map
        (fun kv => kv.1)).Nodup)
    ∧ (∃ pubs, onDataReceived [("type", Value.str "combined"),
        ("sensors", Value.dict [("gas", Value.int 10), ("temperature", Value.int 20)])]
        = some pubs
      ∧ (∀ kv ∈ [("gas", Value.int 10), ("temperature", Value.int 20)],
          ∀ topic, alookup sensorTopics kv.1 = some topic →
          pubs.filter (fun p => p.1 = topic) = [(topic, kv.2)])
      ∧ (∀ p ∈ pubs, ∃ kv ∈ [("gas", Value.int 10), ("temperature", Value.int 20)],
          alookup sensorTopics kv.1 = some p.1 ∧ p.2 = kv.2)) :=
  ⟨rfl, rfl, by decide,
    claim_C1_combined_routing _ _ rfl rfl (by decide)⟩

/-- Claim C8: a decoded message whose `type` discriminator is not one of
the seven recognized strings — including a missing or non-string `type`,
which the `data.get('type', '')` default turns into a string not in the
table — produces zero publishes and no error from `on_data_received`. -/
theorem claim_C8_unknown_dropped (data : List (String × Value))
    (h : ∀ s, (alookup data "type").getD (Value.str "") = Value.str s →
      s ∉ ["gas", "gps", "temperature", "humidity", "accelerometer",
           "gyroscope", "combined"]) :
    onDataReceived data = some [] := by
  unfold onDataReceived
  split
  next s heq =>
    have hs := h s heq
    simp only [List.mem_cons, List.not_mem_nil, or_false, not_or] at hs
    obtain ⟨h1, h2, h3, h4, h5, h6, h7⟩ := hs
    simp [h1, h2, h3, h4, h5, h6, h7]
  next v hne => rfl

theorem claim_C8_witness :
    (∀ s, (alookup [("type", Value.str "unknown_sensor"), ("value", Value.int 1)]
        "type").getD (Value.str "") = Value.str s →
      s ∉ ["gas", "gps", "temperature", "humidity", "accelerometer",
           "gyroscope", "combined"])
    ∧ onDataReceived [("type", Value.str "unknown_sensor"), ("value", Value.int 1)]
      = some [] :=
  ⟨by intro s hs; injection hs with h; subst h; decide,
   claim_C8_unknown_dropped _
     (by intro s hs; injection hs with h; subst h; decide)⟩

theorem splitNl_residue : ∀ xs : List Char, '\n' ∉ (splitNl xs).2 := by
  intro xs
  induction xs with
  | nil => simp [splitNl]
  | cons c cs ih =>
    rcases hsp : splitNl cs with ⟨ls, r⟩
    rw [hsp] at ih
    simp only [splitNl, hsp]
    by_cases hc : c = '\n'
    · simpa [hc] using ih
    · cases ls with
      | nil =>
        simp only [if_neg hc]
        intro hmem
        rcases List.mem_cons.mp hmem with h | h
        · exact hc h.symm
        · exact ih h
      | cons l lt => simpa [hc] using ih

theorem splitNl_no_newline : ∀ buf : List Char, '\n' ∉ buf → splitNl buf = ([], buf) := by
  intro buf
  induction buf with
  | nil => intro _; rfl
  | cons c cs ih =>
    intro h
    simp only [List.mem_cons, not_or] at h
    obtain ⟨hc, hcs⟩ := h
    simp only [splitNl, ih hcs]
    simp [Ne.symm hc]

theorem splitNl_append : ∀ xs ys : List Char,
    splitNl (xs ++ ys)
      = ((splitNl xs).1 ++ (splitNl ((splitNl xs).2 ++ ys)).1,
         (splitNl ((splitNl xs).2 ++ ys)).2) := by
  intro xs
  induction xs with
  | nil => intro ys; simp [splitNl]
  | cons c cs ih =>
    intro ys
    rcases hcs : splitNl cs with ⟨ls, r⟩
    rcases hrys : splitNl (r ++ ys) with ⟨ls2, r2⟩
    have ihys := ih ys
    rw [hcs, hrys] at ihys
    simp only at ihys
    by_cases hc : c = '\n'
    · subst hc
      simp only [List.cons_append, splitNl, ihys, hcs, hrys]
      simp [ihys, hrys]
    · simp only [List.cons_append, splitNl, ihys, hcs, hrys]
      cases ls with
      | nil =>
        simp only [if_neg hc, List.nil_append]
        cases ls2 with
        | nil => simp [splitNl, hrys, ihys, if_neg hc]
        | cons l2 lt2 => simp [splitNl, hrys, ihys, if_neg hc]
      | cons l lt =>
        simp only [if_neg hc, List.cons_append]
        simp [splitNl, hrys, ihys, if_neg hc]

theorem splitNl_line : ∀ (line rest : List Char), '\n' ∉ line →
    splitNl (line ++ '\n' :: rest)
      = (line :: (splitNl rest).1, (splitNl rest).2) := by
  intro line
  induction line with
  | nil =>
    intro rest _
    rcases hr : splitNl rest with ⟨ls, r⟩
    simp [splitNl, hr]
  | cons c cs ih =>
    intro rest h
    simp only [List.mem_cons, not_or] at h
    obtain ⟨hc, hcs⟩ := h
    have ihr := ih rest hcs
    rcases hr : splitNl rest with ⟨ls, r⟩
    rw [hr] at ihr
    simp only at ihr
    simp only [List.cons_append, splitNl, ihr, hr]
    simp [ihr, Ne.symm hc]

theorem recvLoop_eq : ∀ (decode : List Char → Option Value)
    (chunks : List (List Char)) (msgs : List Value) (buf : List Char),
    '\n' ∉ buf →
    chunks.foldl (recvChunk decode) (msgs, buf)
      = (msgs ++ (splitNl (buf ++ chunks.flatten)).1.filterMap decode,
         (splitNl (buf ++ chunks.flatten)).2) := by
  intro decode chunks
  induction chunks with
  | nil =>
    intro msgs buf hbuf
    simp [splitNl_no_newline buf hbuf]
  | cons chunk chunks ih =>
    intro msgs buf hbuf
    simp only [List.foldl_cons]
    rcases hbc : splitNl (buf ++ chunk) with ⟨ls, r⟩
    have hstep : recvChunk decode (msgs, buf) chunk
        = (msgs ++ ls.filterMap decode, r) := by
      simp [recvChunk, hbc]
    rw [hstep]
    have hres : '\n' ∉ r := by
      have h := splitNl_residue (buf ++ chunk)
      rw [hbc] at h
      exact h
    rw [ih _ _ hres]
    have happ := splitNl_append (buf ++ chunk) chunks.flatten
    rw [hbc] at happ
    simp only at happ
    simp only [List.flatten_cons, ← List.append_assoc, happ]
    simp [List.filterMap_append, List.append_assoc]

/-- Claim C6: the stream frame decoder is split-point invariant — for every
decoder and every sequence of byte chunks, accumulating the chunks and
repeatedly extracting newline-delimited lines yields exactly the decoded
messages of the complete lines of the concatenated stream, in order, with
the newline-free trailing remainder retained in the buffer; in particular
the three chunks of P4 yield exactly the two expected messages under
`jsonDecode`, with an empty buffer left. -/
theorem claim_C6_frame_reassembly :
    (∀ (decode : List Char → Option Value) (chunks : List (List Char)),
      recvAll decode chunks
        = ((splitNl chunks.flatten).1.filterMap decode,
           (splitNl chunks.flatten).2)
      ∧ '\n' ∉ (recvAll decode chunks).2)
    ∧ recvAll jsonDecode
        ["\x7b\"type\":\"gas\",\"val".data,
         "ue\":5\x7d\n\x7b\"type\":\"temp".data,
         "erature\",\"value\":22\x7d\n".data]
      = ([Value.dict [("type", Value.str "gas"), ("value", Value.int 5)],
          Value.dict [("type", Value.str "temperature"), ("value", Value.int 22)]],
         []) := by
  constructor
  · intro decode chunks
    have h := recvLoop_eq decode chunks [] [] (by simp)
    have hmain : recvAll decode chunks
        = ((splitNl chunks.flatten).1.filterMap decode, (splitNl chunks.flatten).2) := by
      simpa [recvAll] using h
    refine ⟨hmain, ?_⟩
    rw [hmain]
    exact splitNl_residue chunks.flatten
  · rfl

/-- Claim C7: a line that fails JSON decoding is silently discarded by the
stream frame decoder — feeding a buffer that starts with a failing line is
exactly the same as feeding the rest, for any decoder and any failing line —
and no error reaches the caller; in particular the P5 input yields exactly
the one well-formed message. -/
theorem claim_C7_malformed_line_tolerance
    (decode : List Char → Option Value) (bad rest : List Char)
    (hnl : '\n' ∉ bad) (hfail : decode bad = none) :
    recvAll decode [bad ++ '\n' :: rest] = recvAll decode [rest]
    ∧ recvAll jsonDecode ["not-json\n\x7b\"type\":\"gas\",\"value\":1\x7d\n".data]
      = ([Value.dict [("type", Value.str "gas"), ("value", Value.int 1)]], []) := by
  constructor
  · rcases hr : splitNl rest with ⟨ls, r⟩
    have hsp := splitNl_line bad rest hnl
    rw [hr] at hsp
    simp only at hsp
    simp [recvAll, recvChunk, hsp, hr, hfail]
  · rfl

theorem claim_C7_witness :
    ('\n' ∉ "not-json".data)
    ∧ jsonDecode "not-json".data = none
    ∧ (recvAll jsonDecode
        ["not-json".data ++ '\n' :: "\x7b\"type\":\"gas\",\"value\":1\x7d\n".data]
        = recvAll jsonDecode ["\x7b\"type\":\"gas\",\"value\":1\x7d\n".data]
      ∧ recvAll jsonDecode ["not-json\n\x7b\"type\":\"gas\",\"value\":1\x7d\n".data]
        = ([Value.dict [("type", Value.str "gas"), ("value", Value.int 1)]], [])) :=
  ⟨by decide, rfl,
   claim_C7_malformed_line_tolerance jsonDecode "not-json".data
     "\x7b\"type\":\"gas\",\"value\":1\x7d\n".data (by decide) rfl⟩

theorem pathLookup_single (es : List (String × Value)) (k : String) :
    pathLookup (.dict es) [k] = alookup es k := by
  cases h : alookup es k <;> simp [pathLookup, h]

theorem pathLookup_cons (es : List (String × Value)) (k : String) (w : Value)
    (js : List String) (h : alookup es k = some w) :
    pathLookup (.dict es) (k :: js) = pathLookup w js := by
  simp [pathLookup, h]

theorem pathLookup_cons_none (es : List (String × Value)) (k : String)
    (js : List String) (h : alookup es k = none) :
    pathLookup (.dict es) (k :: js) = none := by
  simp [pathLookup, h]

theorem pathLookup_head_eq (es1 es2 : List (String × Value)) (j : String)
    (js : List String) (h : alookup es1 j = alookup es2 j) :
    pathLookup (.dict es1) (j :: js) = pathLookup (.dict es2) (j :: js) := by
  cases hl : alookup es2 j with
  | none =>
    rw [pathLookup_cons_none _ _ _ (h.trans hl), pathLookup_cons_none _ _ _ hl]
  | some w =>
    rw [pathLookup_cons _ _ _ _ (h.trans hl), pathLookup_cons _ _ _ _ hl]

theorem segsLe_cons (a : String) (p q : List String) :
    segsLe (a :: p) (a :: q) ↔ segsLe p q := by
  simp [segsLe, List.take_succ_cons]

theorem setPath_shape (es es' : List (String × Value)) (k : String)
    (ks : List String) (v : Value) (h : setPath es (k :: ks) v = some es') :
    ∃ w, es' = aset es k w := by
  cases ks with
  | nil =>
    simp only [setPath, Option.some.injEq] at h
    exact ⟨v, h.symm⟩
  | cons k1 ks' =>
    cases hlk : alookup es k with
    | none =>
      cases hs : setPath [] (k1 :: ks') v with
      | none => simp [setPath, hlk, hs] at h
      | some sub =>
        simp only [setPath, hlk, hs, Option.some.injEq] at h
        exact ⟨.dict sub, h.symm⟩
    | some w =>
      cases w with
      | dict sub =>
        cases hs : setPath sub (k1 :: ks') v with
        | none => simp [setPath, hlk, hs] at h
        | some sub' =>
          simp only [setPath, hlk, hs, Option.some.injEq] at h
          exact ⟨.dict sub', h.symm⟩
      | str s => simp [setPath, hlk] at h
      | int n => simp [setPath, hlk] at h
      | float q => simp [setPath, hlk] at h
      | bool b => simp [setPath, hlk] at h
      | null => simp [setPath, hlk] at h
      | list l => simp [setPath, hlk] at h

theorem setPath_get : ∀ (ks : List String) (es : List (String × Value)) (v : Value),
    ks ≠ [] →
    (∀ i, i < ks.length → 0 < i →
      isOpenB (pathLookup (.dict es) (ks.take i)) = true) →
    ∃ es', setPath es ks v = some es' ∧ pathLookup (.dict es') ks = some v := by
  intro ks
  induction ks with
  | nil => intro es v h _; exact absurd rfl h
  | cons k ks ih =>
    intro es v _ hopen
    cases ks with
    | nil =>
      refine ⟨aset es k v, rfl, ?_⟩
      rw [pathLookup_single]
      exact alookup_aset_self es k v
    | cons k1 ks' =>
      have h1 := hopen 1 (by simp) (by decide)
      rw [List.take_succ_cons, List.take_zero, pathLookup_single] at h1
      cases hlk : alookup es k with
      | none =>
        have hopen0 : ∀ i, i < (k1 :: ks').length → 0 < i →
            isOpenB (pathLookup (.dict ([] : List (String × Value)))
              ((k1 :: ks').take i)) = true := by
          intro i hi hpos
          cases i with
          | zero => omega
          | succ j =>
            rw [List.take_succ_cons]
            simp [pathLookup, alookup, isOpenB]
        obtain ⟨sub, hs_eq, hs_get⟩ := ih [] v (by simp) hopen0
        refine ⟨aset es k (.dict sub), ?_, ?_⟩
        · simp [setPath, hlk, hs_eq]
        · rw [pathLookup_cons _ k (.dict sub) _ (alookup_aset_self es k (.dict sub))]
          exact hs_get
      | some w =>
        rw [hlk] at h1
        cases w with
        | dict sub0 =>
          have hopen' : ∀ i, i < (k1 :: ks').length → 0 < i →
              isOpenB (pathLookup (.dict sub0) ((k1 :: ks').take i)) = true := by
            intro i hi hpos
            have h2 := hopen (i + 1) (by simpa using Nat.succ_lt_succ hi)
              (Nat.succ_pos i)
            rw [List.take_succ_cons, pathLookup_cons es k (.dict sub0) _ hlk] at h2
            exact h2
          obtain ⟨sub', hs_eq, hs_get⟩ := ih sub0 v (by simp) hopen'
          refine ⟨aset es k (.dict sub'), ?_, ?_⟩
          · simp [setPath, hlk, hs_eq]
          · rw [pathLookup_cons _ k (.dict sub') _ (alookup_aset_self es k (.dict sub'))]
            exact hs_get
        | str s => simp [isOpenB] at h1
        | int n => simp [isOpenB] at h1
        | float q => simp [isOpenB] at h1
        | bool b => simp [isOpenB] at h1
        | null => simp [isOpenB] at h1
        | list l => simp [isOpenB] at h1

theorem setPath_frame : ∀ (ks : List String) (es es' : List (String × Value))
    (v : Value) (js : List String),
    setPath es ks v = some es' →
    ¬ segsLe ks js → ¬ (segsLe js ks ∧ js ≠ ks) →
    pathLookup (.dict es') js = pathLookup (.dict es) js := by
  intro ks
  induction ks with
  | nil => intro es es' v js hset; simp [setPath] at hset
  | cons k ks ih =>
    intro es es' v js hset hnle hnpr
    cases js with
    | nil =>
      exact absurd ⟨by simp [segsLe], by simp⟩ hnpr
    | cons j js' =>
      by_cases hjk : j = k
      · subst hjk
        cases ks with
        | nil => exact absurd (by simp [segsLe]) hnle
        | cons k1 ks' =>
          have hnle' : ¬ segsLe (k1 :: ks') js' := by
            intro hle
            exact hnle ((segsLe_cons j (k1 :: ks') js').mpr hle)
          have hnpr' : ¬ (segsLe js' (k1 :: ks') ∧ js' ≠ k1 :: ks') := by
            rintro ⟨hle, hne⟩
            exact hnpr ⟨(segsLe_cons j js' (k1 :: ks')).mpr hle, by simpa using hne⟩
          have hjs' : js' ≠ [] := by
            intro he
            subst he
            exact hnpr' ⟨by simp [segsLe], by simp⟩
          cases hlk : alookup es j with
          | none =>
            cases hs : setPath [] (k1 :: ks') v with
            | none => simp [setPath, hlk, hs] at hset
            | some sub =>
              simp only [setPath, hlk, hs, Option.some.injEq] at hset
              subst hset
              rw [pathLookup_cons _ j (.dict sub) js'
                (alookup_aset_self es j (.dict sub))]
              rw [pathLookup_cons_none es j js' hlk]
              rw [ih [] sub v js' hs hnle' hnpr']
              cases js' with
              | nil => exact absurd rfl hjs'
              | cons j2 js2 => exact pathLookup_cons_none [] j2 js2 rfl
          | some w =>
            cases w with
            | dict sub0 =>
              cases hs : setPath sub0 (k1 :: ks') v with
              | none => simp [setPath, hlk, hs] at hset
              | some sub' =>
                simp only [setPath, hlk, hs, Option.some.injEq] at hset
                subst hset
                rw [pathLookup_cons _ j (.dict sub') js'
                  (alookup_aset_self es j (.dict sub'))]
                rw [pathLookup_cons es j (.dict sub0) js' hlk]
                exact ih sub0 sub' v js' hs hnle' hnpr'
            | str s => simp [setPath, hlk] at hset
            | int n => simp [setPath, hlk] at hset
            | float q => simp [setPath, hlk] at hset
            | bool b => simp [setPath, hlk] at hset
            | null => simp [setPath, hlk] at hset
            | list l => simp [setPath, hlk] at hset
      · obtain ⟨w, hw⟩ := setPath_shape es es' k ks v hset
        subst hw
        exact pathLookup_head_eq _ es j js' (alookup_aset_ne es k j w hjk)

/-- Claim C10, counterexample: on an empty store, `set('a.b', 1)` satisfies
the claim's hypothesis (every proper dotted prefix of `a.b` is absent) and
`'a'` does not have `'a.b'` as a dotted prefix, yet `get('a', 0)` changes
from the default `0` before the set to the freshly created intermediate
mapping `{'b': 1}` after it — the claim's frame part fails for proper
dotted prefixes of the written key. -/
theorem claim_C10_counterexample :
    (∀ i, i < (segments "a.b").length → 0 < i →
      isOpenB (pathLookup (Value.dict []) ((segments "a.b").take i)) = true)
    ∧ configSet [] "a.b" (Value.int 1)
      = some [("a", Value.dict [("b", Value.int 1)])]
    ∧ ¬ segsLe (segments "a.b") (segments "a")
    ∧ configGet (Value.dict []) "a" (Value.int 0) = Value.int 0
    ∧ configGet (Value.dict [("a", Value.dict [("b", Value.int 1)])]) "a"
        (Value.int 0) ≠ Value.int 0 := by
  refine ⟨by decide, rfl, by decide, rfl, ?_⟩
  rw [show configGet (Value.dict [("a", Value.dict [("b", Value.int 1)])]) "a"
      (Value.int 0) = Value.dict [("b", Value.int 1)] from rfl]
  simp

/-- Claim C10, amended: for every dotted key whose every proper dotted
prefix in the current store is either absent or maps to a mapping, and
every value `v`, `set(key, v)` succeeds, and then `get(key, d)` returns `v`
for any default `d`; and `get(k2, d2)` returns the same value as before the
set for every other key `k2` such that `k2` does not have `key` as a dotted
prefix *and `k2` is not a proper dotted prefix of `key`* (a proper-prefix
key changes: the set materializes the intermediate mapping there). -/
theorem claim_C10_set_get_roundtrip (es : List (String × Value)) (key : String)
    (v : Value)
    (hopen : ∀ i, i < (segments key).length → 0 < i →
      isOpenB (pathLookup (Value.dict es) ((segments key).take i)) = true) :
    ∃ es', configSet es key v = some es'
      ∧ (∀ d, configGet (Value.dict es') key d = v)
      ∧ (∀ k2 d2, ¬ segsLe (segments key) (segments k2) →
          ¬ (segsLe (segments k2) (segments key) ∧ segments k2 ≠ segments key) →
          configGet (Value.dict es') k2 d2 = configGet (Value.dict es) k2 d2) := by
  obtain ⟨es', hset, hget⟩ :=
    setPath_get (segments key) es v (segments_ne_nil key) hopen
  refine ⟨es', hset, ?_, ?_⟩
  · intro d
    simp only [configGet, getWalk_eq_pathLookup, hget, Option.getD_some]
  · intro k2 d2 h1 h2
    simp only [configGet, getWalk_eq_pathLookup,
      setPath_frame (segments key) es es' v (segments k2) hset h1 h2]

theorem claim_C10_witness :
    (∀ i, i < (segments "a.b").length → 0 < i →
      isOpenB (pathLookup (Value.dict []) ((segments "a.b").take i)) = true)
    ∧ (∃ es', configSet [] "a.b" (Value.int 1) = some es'
      ∧ (∀ d, configGet (Value.dict es') "a.b" d = Value.int 1)
      ∧ (∀ k2 d2, ¬ segsLe (segments "a.b") (segments k2) →
          ¬ (segsLe (segments k2) (segments "a.b") ∧ segments k2 ≠ segments "a.b") →
          configGet (Value.dict es') k2 d2 = configGet (Value.dict []) k2 d2)) :=
  ⟨by decide, claim_C10_set_get_roundtrip [] "a.b" (Value.int 1) (by decide)⟩
